import Mathlib

/-!
Verification development for the shopify-hangtag-generator repository
(`src/server.js`).

The JavaScript program is shallowly embedded here:

* JavaScript runtime values that the program actually manipulates are
  modelled by `JSVal` (strings, finite numbers plus `NaN`, arrays of
  strings for `tags`, and `undefined` for absent object keys).  JavaScript
  numbers are modelled as exact rationals; every number the program meets
  is produced from decimal literals in the incoming JSON, for which the
  rational semantics agrees with the float semantics at the precision the
  program observes (`toFixed(2)` and comparisons).  `Infinity` inputs and
  the sign of negative zero are outside the model.
* Fallible JavaScript evaluation (calling a string method on a number,
  etc.) is modelled with `Except Unit`.
* The PDFKit drawing calls issued by `generateHangTagPDF` are recorded as
  a list of `DrawOp` values, carrying the receiver state (font, size,
  colour) active at each `doc.text` call; the PDF byte encoder itself is
  an opaque collaborator.
* The JSZip archive is modelled as the ordered list of `zip.file`
  insertion events performed by the `POST /api/generate-tags` loop.
-/

/-- A JavaScript number as the program observes it: `NaN` or a finite value,
the latter modelled as an exact rational. -/
inductive JSNum where
  | nan : JSNum
  | val : ℚ → JSNum
deriving DecidableEq, Inhabited

/-- The JavaScript values flowing through `server.js`: absent keys read as
`undefined`, strings, numbers, and arrays of strings (the shape Shopify
JSON uses for `tags`).  `null` does not occur in the modelled inputs and is
identified with `undefined` (both are nullish and falsy). -/
inductive JSVal where
  | undef : JSVal
  | str : String → JSVal
  | num : JSNum → JSVal
  | arr : List String → JSVal
deriving DecidableEq, Inhabited

/-- A product record: a JSON object, i.e. an association of keys to values.
Reading a missing key yields `undefined`. -/
def Product := List (String × JSVal)

/-- The `options` object of the request body, same shape as a record. -/
def Options := List (String × JSVal)

/-- Object property read (`product.sku`, `product['Variant SKU']`, ...):
first binding wins, a missing key reads as `undefined`. -/
def jsGet (p : Product) (k : String) : JSVal :=
  match p.find? (fun kv => kv.1 = k) with
  | some kv => kv.2
  | none => JSVal.undef

/-- JavaScript truthiness of the modelled values: `undefined`, `""`, `0`
and `NaN` are falsy; every other string/number and every array is truthy. -/
def truthy : JSVal → Bool
  | JSVal.undef => false
  | JSVal.str s => s ≠ ""
  | JSVal.num JSNum.nan => false
  | JSVal.num (JSNum.val q) => q ≠ 0
  | JSVal.arr _ => true

/-- The JavaScript `||` operator on values: left operand if truthy, else
right operand. -/
def jsOr (a b : JSVal) : JSVal := if truthy a then a else b

/-- Whitespace as JavaScript's `\s` / `StrWhiteSpace` sees it (the ASCII
whitespace characters plus no-break space; the rarer Unicode space code
points do not occur in the modelled inputs). -/
def jsIsSpace (c : Char) : Bool :=
  c = ' ' ∨ c = '\t' ∨ c = '\n' ∨ c = '\r' ∨ c = '\x0b' ∨ c = '\x0c' ∨ c = '\u00A0'

/-- Digit characters `0`-`9` to their value. -/
def digitVal (c : Char) : Nat := c.toNat - 48

/-- Value of a list of decimal digit characters (most significant first). -/
def decDigitsVal : List Char → Nat → Nat
  | [], acc => acc
  | c :: rest, acc => decDigitsVal rest (acc * 10 + digitVal c)

/-- Mantissa `ip.fp` of a decimal literal given its integer-part digits and
fraction-part digits. -/
def mantissa (ip fp : List Char) : ℚ :=
  (decDigitsVal ip 0 : ℚ) + (decDigitsVal fp 0 : ℚ) / (10 : ℚ) ^ fp.length

/-- Optional exponent suffix `e`/`E` `[+-]` digits of a float literal; a
malformed exponent is ignored, as `parseFloat` only consumes the longest
valid literal prefix. -/
def applyExp (q : ℚ) (cs : List Char) : ℚ :=
  match cs with
  | [] => q
  | e :: rest =>
    if e = 'e' ∨ e = 'E' then
      match rest with
      | '+' :: r2 =>
        let ds := r2.takeWhile Char.isDigit
        if ds.isEmpty then q else q * (10 : ℚ) ^ ((decDigitsVal ds 0 : ℤ))
      | '-' :: r2 =>
        let ds := r2.takeWhile Char.isDigit
        if ds.isEmpty then q else q * (10 : ℚ) ^ (-(decDigitsVal ds 0 : ℤ))
      | r2 =>
        let ds := r2.takeWhile Char.isDigit
        if ds.isEmpty then q else q * (10 : ℚ) ^ ((decDigitsVal ds 0 : ℤ))
    else q

/-- Unsigned part of `parseFloat`: `digits [. digits] [exponent]` with at
least one digit, consuming the longest valid prefix; `none` when no prefix
of the input is a number literal. -/
def parseFloatCore (cs : List Char) : Option ℚ :=
  let ip := cs.takeWhile Char.isDigit
  let r1 := cs.dropWhile Char.isDigit
  match r1 with
  | '.' :: r2 =>
    let fp := r2.takeWhile Char.isDigit
    let r3 := r2.dropWhile Char.isDigit
    if ip.isEmpty ∧ fp.isEmpty then none
    else some (applyExp (mantissa ip fp) r3)
  | _ => if ip.isEmpty then none else some (applyExp (mantissa ip []) r1)

/-- `parseFloat` on a string: skip leading whitespace, optional sign, then
the longest decimal literal prefix; `NaN` when there is none.  (`Infinity`
literals are outside the model.) -/
def parseFloatString (s : String) : JSNum :=
  let cs := s.toList.dropWhile jsIsSpace
  match cs with
  | '+' :: r =>
    match parseFloatCore r with
    | some q => JSNum.val q
    | none => JSNum.nan
  | '-' :: r =>
    match parseFloatCore r with
    | some q => JSNum.val (-q)
    | none => JSNum.nan
  | r =>
    match parseFloatCore r with
    | some q => JSNum.val q
    | none => JSNum.nan

/-- The decimal-string image of a nonnegative rational whose denominator
divides a power of ten (every number the program prints is of this form:
JavaScript floats are dyadic).  Trailing zeros of the fraction are
trimmed, matching JavaScript's shortest number-to-string output for the
decimal literals the program meets. -/
def ratToStringNN (q : ℚ) : String :=
  match (List.range 41).find? (fun k => (10 ^ k) % q.den = 0) with
  | none => toString q
  | some k =>
    let m := q.num.toNat * ((10 ^ k) / q.den)
    if k = 0 then Nat.repr m
    else
      let ip := m / 10 ^ k
      let f := m % 10 ^ k
      if f = 0 then Nat.repr ip
      else
        let s := (Nat.repr f).toList
        let padded := List.replicate (k - s.length) '0' ++ s
        let trimmed := (padded.reverse.dropWhile (fun c => c = '0')).reverse
        Nat.repr ip ++ "." ++ trimmed.asString

/-- Decimal-string image of a rational (sign plus `ratToStringNN`). -/
def ratToString (q : ℚ) : String :=
  if q < 0 then "-" ++ ratToStringNN (-q) else ratToStringNN q

/-- `String(n)` for a JavaScript number. -/
def jsNumToString : JSNum → String
  | JSNum.nan => "NaN"
  | JSNum.val q => ratToString q

/-- JavaScript string coercion (template literals, `doc.text` receivers):
strings unchanged, numbers printed, arrays joined with commas, `undefined`
printed as its name. -/
def jsToString : JSVal → String
  | JSVal.undef => "undefined"
  | JSVal.str s => s
  | JSVal.num n => jsNumToString n
  | JSVal.arr xs => String.intercalate "," xs

/-- `parseFloat` applied to an arbitrary value: the argument is first
coerced to a string; for numbers that round-trips, so they are returned
unchanged. -/
def jsParseFloat : JSVal → JSNum
  | JSVal.num n => n
  | JSVal.str s => parseFloatString s
  | JSVal.arr xs => parseFloatString (String.intercalate "," xs)
  | JSVal.undef => JSNum.nan

/-- Is `c` a hexadecimal digit? -/
def jsIsHexDigit (c : Char) : Bool :=
  c.isDigit ∨ ('a' ≤ c ∧ c ≤ 'f') ∨ ('A' ≤ c ∧ c ≤ 'F')

/-- Value of a hexadecimal digit character. -/
def hexDigitVal (c : Char) : Nat :=
  if c.isDigit then c.toNat - 48
  else if 'a' ≤ c ∧ c ≤ 'f' then c.toNat - 87
  else c.toNat - 55

/-- Value of a list of hexadecimal digit characters. -/
def hexDigitsVal : List Char → Nat → Nat
  | [], acc => acc
  | c :: rest, acc => hexDigitsVal rest (acc * 16 + hexDigitVal c)

/-- Unsigned part of `parseInt` (radix auto-detection): a `0x`/`0X` prefix
switches to hexadecimal, otherwise the longest decimal digit prefix;
`none` when there is no digit. -/
def parseIntCore (cs : List Char) : Option Nat :=
  match cs with
  | '0' :: x :: rest =>
    if x = 'x' ∨ x = 'X' then
      let hs := rest.takeWhile jsIsHexDigit
      if hs.isEmpty then none else some (hexDigitsVal hs 0)
    else
      some (decDigitsVal (('0' :: x :: rest).takeWhile Char.isDigit) 0)
  | _ =>
    let ds := cs.takeWhile Char.isDigit
    if ds.isEmpty then none else some (decDigitsVal ds 0)

/-- `parseInt` on a string: whitespace, optional sign, radix-detected digit
prefix; `NaN` when no digits are found. -/
def parseIntString (s : String) : JSNum :=
  let cs := s.toList.dropWhile jsIsSpace
  match cs with
  | '+' :: r =>
    match parseIntCore r with
    | some n => JSNum.val n
    | none => JSNum.nan
  | '-' :: r =>
    match parseIntCore r with
    | some n => JSNum.val (-(n : ℤ))
    | none => JSNum.nan
  | r =>
    match parseIntCore r with
    | some n => JSNum.val n
    | none => JSNum.nan

/-- Truncation toward zero of a rational, as `parseInt` performs on the
printed form of a finite number. -/
def jsTruncate (q : ℚ) : ℚ :=
  if q < 0 then -((Int.ediv (-q).num ((-q).den : ℤ) : ℤ) : ℚ)
  else ((Int.ediv q.num (q.den : ℤ) : ℤ) : ℚ)

/-- `parseInt` applied to an arbitrary value (string coercion first; finite
numbers printed without exponent truncate toward zero). -/
def jsParseInt : JSVal → JSNum
  | JSVal.num JSNum.nan => JSNum.nan
  | JSVal.num (JSNum.val q) => JSNum.val (jsTruncate q)
  | JSVal.str s => parseIntString s
  | JSVal.arr xs => parseIntString (String.intercalate "," xs)
  | JSVal.undef => JSNum.nan

/-- `x || d` for a number `x` and a nonzero literal default `d`:
`NaN` and `0` are falsy and select the default. -/
def numOrDefault (n : JSNum) (d : ℚ) : ℚ :=
  match n with
  | JSNum.nan => d
  | JSNum.val q => if q = 0 then d else q

/-- Strict `>` on JavaScript numbers: any comparison with `NaN` is false. -/
def jsGt : JSNum → JSNum → Bool
  | JSNum.val a, JSNum.val b => a > b
  | _, _ => false

/-- The two-decimal digit string `toFixed(2)` produces: round the scaled
value half-toward-positive-infinity and print with exactly two fraction
digits. -/
def fixedFmt (n : Nat) : String :=
  Nat.repr (n / 100) ++ "." ++ Nat.repr (n % 100 / 10) ++ Nat.repr (n % 10)

/-- `n.toFixed(2)` on a JavaScript number. -/
def jsToFixed2 : JSNum → String
  | JSNum.nan => "NaN"
  | JSNum.val q =>
    let r := q * 100 + 1 / 2
    let m : ℤ := Int.ediv r.num (r.den : ℤ)
    if m < 0 then "-" ++ fixedFmt (-m).toNat else fixedFmt m.toNat

/-- Substring test, as `String.prototype.includes`. -/
def strContains (s sub : String) : Bool :=
  s.toList.tails.any (fun t => sub.toList.isPrefixOf t)

/-- Suffix test, as `String.prototype.endsWith`. -/
def jsStrEndsWith (s suffix : String) : Bool :=
  suffix.toList.isSuffixOf s.toList

/-- `v?.includes(needle)` as the `isRecon` expression uses it, coerced to
its truthiness: `undefined` receivers short-circuit to a falsy result,
string receivers test substring containment, arrays test membership, and a
number receiver throws (`TypeError`: not a function). -/
def jsOptIncludes (v : JSVal) (needle : String) : Except Unit Bool :=
  match v with
  | JSVal.undef => Except.ok false
  | JSVal.str s => Except.ok (strContains s needle)
  | JSVal.arr xs => Except.ok (xs.contains needle)
  | JSVal.num _ => Except.error ()

/-- `v?.endsWith(suffix)` coerced to truthiness: `undefined` receivers
short-circuit to falsy, strings test the suffix, any other receiver
throws. -/
def jsOptEndsWith (v : JSVal) (suffix : String) : Except Unit Bool :=
  match v with
  | JSVal.undef => Except.ok false
  | JSVal.str s => Except.ok (jsStrEndsWith s suffix)
  | _ => Except.error ()

/-- The receiver of `.match` / `.toUpperCase` must be a string, otherwise
the call throws. -/
def jsAsString : JSVal → Except Unit String
  | JSVal.str s => Except.ok s
  | _ => Except.error ()

/-- `vendor.toUpperCase()` (line 107): throws unless the receiver is a
string. -/
def jsToUpperCase : JSVal → Except Unit String
  | JSVal.str s => Except.ok s.toUpper
  | _ => Except.error ()

/-! ### The `INCLUDES` regular expressions of `generateHangTagPDF`

`bodyHtml.match(/INCLUDES\s*:\s*(.*?)(?:<\/?[^>]*>|$)/i)` (line 97),
`.replace(/<[^>]*>/g, '')` and `.trim()` (line 98), and
`includesText.split(/[,;]|and\s+/i)` (line 146) are modelled directly as
scanners over character lists, with JavaScript regex semantics: leftmost
match, lazy `(.*?)` whose dot does not cross line terminators, greedy
`\s*`/`\s+`, and case-insensitive literal matching. -/

/-- Case-insensitive literal prefix match; on success returns the input
after the pattern. -/
def ciStartsWith : List Char → List Char → Option (List Char)
  | [], cs => some cs
  | _ :: _, [] => none
  | p :: ps, c :: cs => if p.toLower = c.toLower then ciStartsWith ps cs else none

/-- Scan to just past the first `>` character, the greedy `[^>]*>` tail of
the tag patterns. -/
def findGt : List Char → Option (List Char)
  | [] => none
  | c :: rest => if c = '>' then some rest else findGt rest

/-- Does `<\/?[^>]*>` match at the head of the input?  Equivalently: the
input starts with `<` and a `>` occurs later; the result is the input past
that first `>`. -/
def matchTag (cs : List Char) : Option (List Char) :=
  match cs with
  | [] => none
  | c :: rest => if c = '<' then findGt rest else none

/-- May the lazy dot of `(.*?)` consume `c`?  (Dot does not match line
terminators without the `s` flag.) -/
def dotOk (c : Char) : Bool :=
  if c = '\n' ∨ c = '\r' ∨ c = ' ' ∨ c = ' ' then false else true

/-- The lazy capture `(.*?)(?:<\/?[^>]*>|$)`: the shortest prefix ending
where a tag begins or at the end of the input; fails when a line
terminator intervenes first. -/
def captureLazy : List Char → Option (List Char)
  | [] => some []
  | c :: rest =>
    if (matchTag (c :: rest)).isSome then some []
    else if dotOk c then (captureLazy rest).map (fun t => c :: t)
    else none

/-- Attempt the whole `INCLUDES\s*:\s*(.*?)(?:<\/?[^>]*>|$)` pattern at the
head of the input, returning the captured group. -/
def matchIncludesAt (cs : List Char) : Option (List Char) :=
  match ciStartsWith ("INCLUDES".toList) cs with
  | none => none
  | some r1 =>
    match r1.dropWhile jsIsSpace with
    | ':' :: r2 => captureLazy (r2.dropWhile jsIsSpace)
    | _ => none

/-- Leftmost match of the `INCLUDES` pattern over the whole input (the
semantics of `String.prototype.match` without the `g` flag). -/
def findIncludesMatch : List Char → Option (List Char)
  | [] => none
  | c :: rest =>
    match matchIncludesAt (c :: rest) with
    | some cap => some cap
    | none => findIncludesMatch rest

/-- Fuelled worker for `stripTags`; structural recursion on the fuel keeps
the definition kernel-computable.  Every step consumes at least one input
character (`findGt_length_lt`), so fuel equal to the input length never
runs out and the zero-fuel branch is unreachable. -/
def stripTagsFuel : Nat → List Char → List Char
  | 0, _ => []
  | _ + 1, [] => []
  | fuel + 1, c :: rest =>
    if c = '<' then
      match findGt rest with
      | some rest2 => stripTagsFuel fuel rest2
      | none => c :: stripTagsFuel fuel rest
    else c :: stripTagsFuel fuel rest

/-- Global tag removal `replace(/<[^>]*>/g, '')`: each leftmost
non-overlapping `<[^>]*>` match is dropped; a `<` with no later `>` is
kept verbatim. -/
def stripTags (cs : List Char) : List Char :=
  stripTagsFuel cs.length cs

/-- `trim()` with JavaScript's whitespace class. -/
def jsTrimList (cs : List Char) : List Char :=
  ((cs.dropWhile jsIsSpace).reverse.dropWhile jsIsSpace).reverse

/-- Does the separator alternation `[,;]|and\s+` (case-insensitive) match
at the head of the input?  On success returns the input past the greedy
match.  `and` requires at least one following whitespace character and
consumes all of them; no word boundary is required before `and`. -/
def matchSep (cs : List Char) : Option (List Char) :=
  match cs with
  | [] => none
  | c :: rest =>
    if c = ',' ∨ c = ';' then some rest
    else
      match ciStartsWith ['a', 'n', 'd'] (c :: rest) with
      | some r2 =>
        match r2 with
        | c2 :: r3 => if jsIsSpace c2 then some (r3.dropWhile jsIsSpace) else none
        | [] => none
      | none => none

/-- Fuelled worker for `splitRaw`; structural recursion on the fuel keeps
the definition kernel-computable.  Every step consumes at least one input
character (`matchSep_length_lt`), so fuel equal to the input length never
runs out: the zero-fuel branch coincides with the empty-input answer. -/
def splitRawFuel : Nat → List Char → List (List Char)
  | 0, _ => [[]]
  | fuel + 1, cs =>
    match matchSep cs with
    | some rest => [] :: splitRawFuel fuel rest
    | none =>
      match cs with
      | [] => [[]]
      | c :: rest =>
        match splitRawFuel fuel rest with
        | f :: fs => (c :: f) :: fs
        | [] => [[c]]

/-- `String.prototype.split` on the separator regex: the list of fragments
between successive leftmost non-overlapping separator matches (empty
fragments included, as in JavaScript). -/
def splitRaw (cs : List Char) : List (List Char) :=
  splitRawFuel cs.length cs

/-- Lines 146-149: split the includes text, trim each item, drop the empty
ones, and keep at most four. -/
def includeItemsOf (t : String) : List String :=
  (((splitRaw t.toList).map (fun f => (jsTrimList f).asString)).filter
    (fun s => 0 < s.length)).take 4

/-- Line 98: the captured group with embedded markup stripped and trimmed,
or the empty string when the pattern did not match. -/
def includesTextOf (body : String) : String :=
  match findIncludesMatch body.toList with
  | some cap => (jsTrimList (stripTags cap)).asString
  | none => ""

/-! ### Field extraction (`generateHangTagPDF`, lines 83-98) -/

/-- The canonical fields lines 84-98 extract from a product record. -/
structure Fields where
  isRecon : Bool
  price : JSNum
  comparePrice : JSNum
  title : JSVal
  vendor : JSVal
  sku : JSVal
  includesText : String
deriving DecidableEq, Inhabited

/-- Lines 84-87: `product.tags?.includes('Recon') ||
product.tags?.includes('recon') || product.sku?.endsWith('-R') ||
product['Variant SKU']?.endsWith('-R')`, with `||` short-circuiting, so a
later ill-typed operand is only reached when every earlier one is falsy. -/
def isReconOf (p : Product) : Except Unit Bool := do
  let a ← jsOptIncludes (jsGet p "tags") "Recon"
  if a then return true
  let b ← jsOptIncludes (jsGet p "tags") "recon"
  if b then return true
  let c ← jsOptEndsWith (jsGet p "sku") "-R"
  if c then return true
  jsOptEndsWith (jsGet p "Variant SKU") "-R"

/-- Lines 83-98 of `generateHangTagPDF`.  The only fallible steps are the
`isRecon` expression and `bodyHtml.match` (whose receiver must be a
string); every other field is built with `||` fallbacks and the total
`parseFloat`. -/
def extract (p : Product) : Except Unit Fields := do
  let isRecon ← isReconOf p
  let price :=
    jsParseFloat (jsOr (jsOr (jsGet p "price") (jsGet p "Variant Price"))
      (JSVal.num (JSNum.val 0)))
  let comparePrice :=
    jsParseFloat (jsOr (jsOr (jsGet p "compare_at_price")
      (jsGet p "Variant Compare At Price")) (JSVal.num (JSNum.val 0)))
  let title := jsOr (jsOr (jsGet p "title") (jsGet p "Title")) (JSVal.str "Product")
  let vendor := jsOr (jsOr (jsGet p "vendor") (jsGet p "Vendor")) (JSVal.str "Brand")
  let sku := jsOr (jsOr (jsGet p "sku") (jsGet p "Variant SKU")) (JSVal.str "")
  let body ← jsAsString
    (jsOr (jsOr (jsGet p "body_html") (jsGet p "Body (HTML)")) (JSVal.str ""))
  pure { isRecon, price, comparePrice, title, vendor, sku,
         includesText := includesTextOf body }

/-! ### The tag renderer (`generateHangTagPDF`, lines 100-197) -/

/-- One positioned `doc.text` call, together with the font size, font face
and fill colour active on the document at that moment, and the layout
options passed to the call (`width`, `align`, `lineGap`, `strike`). -/
structure TextOp where
  content : String
  x : ℚ
  y : ℚ
  size : ℚ
  font : String
  color : String
  width : Option ℚ := none
  align : Option String := none
  lineGap : Option ℚ := none
  strike : Bool := false
deriving DecidableEq

/-- A drawing primitive issued on the PDFKit document: a rectangle with
its fill/stroke colours, or a text call. -/
inductive DrawOp where
  | rect (x y w h : ℚ) (fill stroke : Option String)
  | text (t : TextOp)
deriving DecidableEq

/-- Lines 100-197: the ordered drawing calls for one hang tag, given the
extracted fields and the upper-cased vendor.  Fixed positions are literal;
the includes block and the price/MSRP pair advance the running `currentY`
cursor exactly as the source does.  (`doc.end`/buffer assembly is the
opaque PDF encoder.) -/
def buildOps (f : Fields) (vendorUpper : String) (options : Options) : List DrawOp :=
  let titleSize : ℚ := numOrDefault (jsParseInt (jsGet options "titleSize")) 11
  let priceSize : ℚ := numOrDefault (jsParseInt (jsGet options "priceSize")) 24
  let scaledPriceSize : ℚ := min priceSize 28
  let items := includeItemsOf f.includesText
  let priceY : ℚ :=
    if f.includesText = "" then 175 else 175 + 12 + 9 * items.length + 5
  let msrpY : ℚ := priceY + scaledPriceSize + 2
  [DrawOp.rect 8 15 60 20 (some "#e53e3e") (some "#e53e3e"),
   DrawOp.text { content := vendorUpper, x := 12, y := 22, size := 8,
                 font := "Helvetica-Bold", color := "white",
                 width := some 52, align := some "center" },
   DrawOp.text { content := "Model " ++ jsToString f.sku, x := 100, y := 20,
                 size := 10, font := "Helvetica-Bold", color := "black",
                 width := some 86, align := some "right" },
   DrawOp.text { content := jsToString f.title, x := 12, y := 45,
                 size := titleSize, font := "Helvetica-Bold", color := "black",
                 width := some 170, align := some "center", lineGap := some 1 },
   DrawOp.rect 25 85 144 80 none (some "#cccccc"),
   DrawOp.text { content := "Product Image", x := 25, y := 121, size := 8,
                 font := "Helvetica-Bold", color := "#999999",
                 width := some 144, align := some "center" }]
  ++ (if f.includesText = "" then []
      else
        DrawOp.text { content := "INCLUDES:", x := 12, y := 175, size := 8,
                      font := "Helvetica-Bold-Oblique", color := "black" } ::
        items.enum.map (fun ki =>
          DrawOp.text { content := "‚Ä¢ " ++ ki.2, x := 12,
                        y := 187 + 9 * (ki.1 : ℚ), size := 7,
                        font := "Helvetica", color := "black",
                        width := some 170 }))
  ++ [DrawOp.text { content := "$" ++ jsToFixed2 f.price, x := 30, y := priceY,
                    size := scaledPriceSize, font := "Helvetica-Bold",
                    color := "black", width := some 134, align := some "center" }]
  ++ (if jsGt f.comparePrice f.price && jsGt f.comparePrice (JSNum.val 0) then
        [DrawOp.text { content := "MSRP $" ++ jsToFixed2 f.comparePrice, x := 30,
                       y := msrpY, size := 10, font := "Helvetica-Oblique",
                       color := "#666666", width := some 134,
                       align := some "center", strike := true }]
      else [])
  ++ (if f.isRecon then
        [DrawOp.rect 0 240 194.4 22.8 (some "#3182ce") (some "#3182ce"),
         DrawOp.text { content := "Factory Reconditioned Tool", x := 8, y := 248,
                       size := 8, font := "Helvetica-Bold", color := "white" },
         DrawOp.text { content := jsToString f.sku, x := 130, y := 248,
                       size := 8, font := "Helvetica-Bold", color := "white" }]
      else [])

/-- `generateHangTagPDF(product, options)`: extraction, then the drawing
pass; the `vendor.toUpperCase()` call of line 107 is the one fallible step
of the pass.  An exception anywhere rejects the promise and no drawing
list (no byte buffer) is produced. -/
def generateHangTagPDF (product : Product) (options : Options) :
    Except Unit (List DrawOp) := do
  let f ← extract product
  let vendorUpper ← jsToUpperCase f.vendor
  pure (buildOps f vendorUpper options)

/-! ### The batch loop (`POST /api/generate-tags`, lines 40-54) -/

/-- Line 46: `${product.sku || product.handle || `product-${i + 1}`}-hangtag.pdf`
(`i` is the 0-based loop index). -/
def filenameOf (i : Nat) (p : Product) : String :=
  jsToString (jsOr (jsOr (jsGet p "sku") (jsGet p "handle"))
    (JSVal.str ("product-" ++ Nat.repr (i + 1)))) ++ "-hangtag.pdf"

/-- Lines 40-52: the per-product loop starting at index `i`.  A successful
render appends one `zip.file(filename, pdfBuffer)` insertion; a failed one
is caught, logged, and contributes nothing. -/
def processFrom (options : Options) (i : Nat) : List Product → List (String × List DrawOp)
  | [] => []
  | p :: rest =>
    match generateHangTagPDF p options with
    | Except.ok pdf => (filenameOf i p, pdf) :: processFrom options (i + 1) rest
    | Except.error _ => processFrom options (i + 1) rest

/-- The whole batch: the ordered archive-entry insertions for a product
list. -/
def processProducts (options : Options) (ps : List Product) :
    List (String × List DrawOp) :=
  processFrom options 0 ps

/-- The archive entry a product at index `i` would contribute: `none` when
its render fails. -/
def entryOf (options : Options) (i : Nat) (p : Product) :
    Option (String × List DrawOp) :=
  (generateHangTagPDF p options).toOption.map (fun ops => (filenameOf i p, ops))

/-! ### Observations on a drawing list -/

/-- Is this text call the left half of the reconditioned banner?  Among
all calls the renderer can issue, only the banner text is placed at
`x = 8`, so the content check never collides with the free-form title or
vendor text. -/
def isBannerTextOp : DrawOp → Bool
  | DrawOp.text t => decide (t.x = 8) && decide (t.content = "Factory Reconditioned Tool")
  | _ => false

/-- Does the document show the reconditioned banner? -/
def hasReconBanner (ops : List DrawOp) : Bool := ops.any isBannerTextOp

/-- Is this text call the MSRP strike-through line?  It is the only call
that passes `strike: true`. -/
def isMsrpOp : DrawOp → Bool
  | DrawOp.text t => t.strike
  | _ => false

/-- Does the document show the MSRP strike-through line? -/
def hasMsrpLine (ops : List DrawOp) : Bool := ops.any isMsrpOp

/-- The drawing list of a successful render, for concrete instantiation. -/
def genOk (p : Product) (options : Options) : List DrawOp :=
  ((generateHangTagPDF p options).toOption).getD []

/-- The extracted fields of a successful extraction, for concrete
instantiation. -/
def extractOk (p : Product) : Fields :=
  ((extract p).toOption).getD default

example :
    includesTextOf "INCLUDES: Bolt, Case and Manual<br>" = "Bolt, Case and Manual" := by
  with_unfolding_all rfl

example :
    includeItemsOf "Bolt, Case and Manual" = ["Bolt", "Case", "Manual"] := by
  with_unfolding_all rfl

example : includeItemsOf "Band saw" = ["B", "saw"] := by with_unfolding_all rfl
example : includeItemsOf "Band" = ["Band"] := by with_unfolding_all rfl
example : jsToFixed2 (jsParseFloat (JSVal.str "19.99")) = "19.99" := by
  with_unfolding_all rfl
example : jsToFixed2 (jsParseFloat (JSVal.str "20")) = "20.00" := by
  with_unfolding_all rfl
example : jsParseFloat (JSVal.str "abc") = JSNum.nan := by with_unfolding_all rfl
example : extract [("tags", JSVal.num (JSNum.val 1))] = Except.error () := by
  with_unfolding_all rfl
example :
    (processProducts [] [[("Variant SKU", JSVal.str "VS-1")]]).map Prod.fst =
      ["product-1-hangtag.pdf"] := by with_unfolding_all rfl

/-- A value that may carry a string-method call without throwing: absent
(`undefined`, short-circuited by `?.`) or an actual string. -/
def strOrAbsent (v : JSVal) : Prop := v = JSVal.undef ∨ ∃ s, v = JSVal.str s

/-- A value `tags?.includes(...)` accepts: absent, a string (substring
test) or an array (membership test). -/
def tagsTyped (v : JSVal) : Prop :=
  v = JSVal.undef ∨ (∃ s, v = JSVal.str s) ∨ ∃ xs, v = JSVal.arr xs

/-! ### Shared structural lemmas -/

/-- `findGt` consumes at least the `>` character. -/
theorem findGt_length_lt : ∀ cs r, findGt cs = some r → r.length < cs.length := by
  intro cs
  induction cs with
  | nil => intro r h; simp [findGt] at h
  | cons c rest ih =>
    intro r h
    rw [findGt] at h
    by_cases hc : c = '>'
    · simp [hc] at h
      simp [← h, List.length_cons]
    · simp [hc] at h
      exact Nat.lt_trans (ih r h) (Nat.lt_succ_self _)

/-- A successful `ciStartsWith` consumes exactly the pattern's length. -/
theorem ciStartsWith_length :
    ∀ ps cs r, ciStartsWith ps cs = some r → r.length + ps.length = cs.length := by
  intro ps
  induction ps with
  | nil => intro cs r h; simp [ciStartsWith] at h; simp [h]
  | cons p ps ih =>
    intro cs r h
    match cs with
    | [] => simp [ciStartsWith] at h
    | c :: cs' =>
      rw [ciStartsWith] at h
      by_cases hc : p.toLower = c.toLower
      · simp [hc] at h
        have := ih cs' r h
        simp [List.length_cons]
        omega
      · simp [hc] at h

/-- A successful separator match consumes at least one character. -/
theorem matchSep_length_lt : ∀ cs r, matchSep cs = some r → r.length < cs.length := by
  intro cs r h
  match cs with
  | [] => simp [matchSep] at h
  | c :: rest =>
    rw [matchSep] at h
    by_cases hc : c = ',' ∨ c = ';'
    · simp [hc] at h
      simp [← h, List.length_cons]
    · simp [hc] at h
      match ha : ciStartsWith ['a', 'n', 'd'] (c :: rest) with
      | none => rw [ha] at h; simp at h
      | some r2 =>
        rw [ha] at h
        have hlen := ciStartsWith_length _ _ _ ha
        match r2 with
        | [] => simp at h
        | c2 :: r3 =>
          by_cases hsp : jsIsSpace c2 = true
          · simp [hsp] at h
            subst h
            have hdrop : (r3.dropWhile jsIsSpace).length ≤ r3.length :=
              (List.dropWhile_suffix jsIsSpace).sublist.length_le
            simp [List.length_cons] at hlen ⊢
            omega
          · simp [hsp] at h

/-- Inversion of a successful `Except` bind. -/
theorem except_bind_ok {α β : Type} {x : Except Unit α} {g : α → Except Unit β}
    {b : β} (h : (x >>= g) = Except.ok b) :
    ∃ a, x = Except.ok a ∧ g a = Except.ok b := by
  cases x with
  | ok a => exact ⟨a, rfl, h⟩
  | error e => simp [Bind.bind, Except.bind] at h

/-- Inversion of a successful extraction: the `isRecon` step succeeded with
the record's flag, the body was a string, and every field is the value its
`||` chain denotes. -/
theorem extract_inv {p : Product} {f : Fields} (h : extract p = Except.ok f) :
    isReconOf p = Except.ok f.isRecon ∧
    (∃ body, jsAsString (jsOr (jsOr (jsGet p "body_html") (jsGet p "Body (HTML)"))
        (JSVal.str "")) = Except.ok body ∧ f.includesText = includesTextOf body) ∧
    f.price = jsParseFloat (jsOr (jsOr (jsGet p "price") (jsGet p "Variant Price"))
      (JSVal.num (JSNum.val 0))) ∧
    f.comparePrice = jsParseFloat (jsOr (jsOr (jsGet p "compare_at_price")
      (jsGet p "Variant Compare At Price")) (JSVal.num (JSNum.val 0))) ∧
    f.title = jsOr (jsOr (jsGet p "title") (jsGet p "Title")) (JSVal.str "Product") ∧
    f.vendor = jsOr (jsOr (jsGet p "vendor") (jsGet p "Vendor")) (JSVal.str "Brand") ∧
    f.sku = jsOr (jsOr (jsGet p "sku") (jsGet p "Variant SKU")) (JSVal.str "") := by
  unfold extract at h
  obtain ⟨r, hr, h2⟩ := except_bind_ok h
  obtain ⟨body, hb, h3⟩ := except_bind_ok h2
  simp only [Pure.pure, Except.pure, Except.ok.injEq] at h3
  subst h3
  exact ⟨hr, ⟨body, hb, rfl⟩, rfl, rfl, rfl, rfl, rfl⟩

/-- Inversion of a successful render: extraction and the vendor upper-case
both succeeded and the drawing list is `buildOps` of their results. -/
theorem gen_inv {p : Product} {o : Options} {ops : List DrawOp}
    (h : generateHangTagPDF p o = Except.ok ops) :
    ∃ f vu, extract p = Except.ok f ∧ jsToUpperCase f.vendor = Except.ok vu ∧
      ops = buildOps f vu o := by
  unfold generateHangTagPDF at h
  obtain ⟨f, hf, h2⟩ := except_bind_ok h
  obtain ⟨vu, hv, h3⟩ := except_bind_ok h2
  simp only [Pure.pure, Except.pure, Except.ok.injEq] at h3
  exact ⟨f, vu, hf, hv, h3.symm⟩

/-- The reconditioned banner appears in the drawing list exactly when the
extracted flag is set: every other text call sits at an `x` other than `8`. -/
theorem hasReconBanner_buildOps (f : Fields) (vu : String) (o : Options) :
    hasReconBanner (buildOps f vu o) = f.isRecon := by
  have e12 : ((12 : ℚ) = 8) = False := by norm_num
  have e100 : ((100 : ℚ) = 8) = False := by norm_num
  have e25 : ((25 : ℚ) = 8) = False := by norm_num
  have e30 : ((30 : ℚ) = 8) = False := by norm_num
  have e130 : ((130 : ℚ) = 8) = False := by norm_num
  by_cases hI : f.includesText = "" <;>
  cases hR : f.isRecon <;>
  cases hM : jsGt f.comparePrice f.price && jsGt f.comparePrice (JSNum.val 0) <;>
    simp [buildOps, hasReconBanner, isBannerTextOp, hI, hR, hM, List.any_append,
      List.any_map, Function.comp, e12, e100, e25, e30, e130] <;>
  · intro x i s _ hx
    subst hx
    simp [e12]

/-- The MSRP strike-through line appears in the drawing list exactly when
`comparePrice > price && comparePrice > 0`: it is the only call passing
`strike: true`. -/
theorem hasMsrpLine_buildOps (f : Fields) (vu : String) (o : Options) :
    hasMsrpLine (buildOps f vu o) =
      (jsGt f.comparePrice f.price && jsGt f.comparePrice (JSNum.val 0)) := by
  by_cases hI : f.includesText = "" <;>
  cases hR : f.isRecon <;>
  cases hM : jsGt f.comparePrice f.price && jsGt f.comparePrice (JSNum.val 0) <;>
    simp [buildOps, hasMsrpLine, isMsrpOp, hI, hR, hM, List.any_append,
      List.any_map, Function.comp] <;>
  · intro x i s _ hx
    subst hx
    simp

/-- The batch loop is the per-index `entryOf` filter-map over the enumerated
product list. -/
theorem processFrom_eq (o : Options) :
    ∀ (n : Nat) (ps : List Product),
      processFrom o n ps =
        (List.enumFrom n ps).filterMap (fun ip => entryOf o ip.1 ip.2) := by
  intro n ps
  induction ps generalizing n with
  | nil => simp [processFrom]
  | cons p rest ih =>
    cases hg : generateHangTagPDF p o with
    | ok pdf =>
      simp [processFrom, hg, List.enumFrom, entryOf, Except.toOption, ih]
    | error e =>
      simp [processFrom, hg, List.enumFrom, entryOf, Except.toOption, ih]

/-- Membership in an enumeration determines an index and the element at
it. -/
theorem mem_enumFrom_get {α : Type} :
    ∀ (l : List α) (n : Nat) (x : Nat × α), x ∈ List.enumFrom n l →
      ∃ j, ∃ hj : j < l.length, x.1 = n + j ∧ l.get ⟨j, hj⟩ = x.2 := by
  intro l
  induction l with
  | nil => intro n x h; simp [List.enumFrom] at h
  | cons a l ih =>
    intro n x h
    simp only [List.enumFrom, List.mem_cons] at h
    rcases h with h | h
    · refine ⟨0, by simp, ?_, ?_⟩ <;> simp [h]
    · obtain ⟨j, hj, h1, h2⟩ := ih (n + 1) x h
      refine ⟨j + 1, by simpa using hj, by omega, by simpa using h2⟩


/-! ### Further shared lemmas for the claim theorems -/

/-- `v?.includes(needle)` cannot throw on an absent, string or array
receiver. -/
theorem jsOptIncludes_ok {v : JSVal} (h : tagsTyped v) (needle : String) :
    ∃ b, jsOptIncludes v needle = Except.ok b := by
  rcases h with h | ⟨s, h⟩ | ⟨xs, h⟩ <;> subst h <;> exact ⟨_, rfl⟩

/-- `v?.endsWith(suffix)` cannot throw on an absent or string receiver. -/
theorem jsOptEndsWith_ok {v : JSVal} (h : strOrAbsent v) (suffix : String) :
    ∃ b, jsOptEndsWith v suffix = Except.ok b := by
  rcases h with h | ⟨s, h⟩ <;> subst h <;> exact ⟨_, rfl⟩

/-- An `a || b || literal-string` chain over absent-or-string values is a
string. -/
theorem jsOr_str {a b : JSVal} (ha : strOrAbsent a) (hb : strOrAbsent b)
    (s0 : String) : ∃ s, jsOr (jsOr a b) (JSVal.str s0) = JSVal.str s := by
  rcases ha with ha | ⟨s1, ha⟩ <;> rcases hb with hb | ⟨s2, hb⟩ <;>
    subst ha <;> subst hb
  · exact ⟨s0, rfl⟩
  · by_cases h2 : s2 = "" <;> simp [jsOr, truthy, h2]
  · by_cases h1 : s1 = "" <;> simp [jsOr, truthy, h1]
  · by_cases h1 : s1 = "" <;> by_cases h2 : s2 = "" <;> simp [jsOr, truthy, h1, h2]

/-- `fixedFmt` is an integer part, a dot, and exactly two decimal digits. -/
theorem fixedFmt_two_digits (n : Nat) :
    ∃ t d1 d2, d1 < 10 ∧ d2 < 10 ∧
      fixedFmt n = t ++ "." ++ Nat.repr d1 ++ Nat.repr d2 :=
  ⟨Nat.repr (n / 100), n % 100 / 10, n % 10, by omega, by omega, rfl⟩

/-! ### Claim theorems -/

/-- C5: for a product whose `body_html` contains
`INCLUDES: Bolt, Case and Manual<br>`, the extracted includes text is the
capture up to the `<br>` tag with markup stripped and trimmed, and the
includes list is exactly `["Bolt", "Case", "Manual"]`: split on the comma
and on `and` + whitespace, trimmed, empty fragments dropped. -/
theorem includes_parsing_example :
    (extract [("body_html", JSVal.str "INCLUDES: Bolt, Case and Manual<br>")]).map
        (fun f => (f.includesText, includeItemsOf f.includesText)) =
      Except.ok ("Bolt, Case and Manual", ["Bolt", "Case", "Manual"]) := by
  with_unfolding_all rfl

/-- C10: the includes splitter needs no word boundary before `and`: the
single item `Band saw` splits at the mid-word `and ` into the two
fragments `B` and `saw`, while `Band`, whose `and` has no whitespace after
it, stays whole. -/
theorem includes_split_no_word_boundary :
    includeItemsOf "Band saw" = ["B", "saw"] ∧
    includeItemsOf "Band" = ["Band"] :=
  ⟨by with_unfolding_all rfl, by with_unfolding_all rfl⟩

/-- C7: the batch inserts at most one archive entry per input product, every
entry is the `entryOf` image of the product at some index of the input
(filename derived from it), and the insertion sequence is exactly the
in-order filter-map of the enumerated input, so insertion order matches
input order. -/
theorem archive_entries_correspond (o : Options) (ps : List Product) :
    (processProducts o ps).length ≤ ps.length ∧
    (∀ e ∈ processProducts o ps,
      ∃ i, ∃ hi : i < ps.length, entryOf o i (ps.get ⟨i, hi⟩) = some e) ∧
    processProducts o ps =
      (List.enumFrom 0 ps).filterMap (fun ip => entryOf o ip.1 ip.2) := by
  have hq := processFrom_eq o 0 ps
  refine ⟨?_, ?_, hq⟩
  · rw [processProducts, hq]
    calc ((List.enumFrom 0 ps).filterMap fun ip => entryOf o ip.1 ip.2).length
        ≤ (List.enumFrom 0 ps).length := List.length_filterMap_le _ _
      _ = ps.length := by simp
  · intro e he
    rw [processProducts, hq] at he
    obtain ⟨ip, hmem, hip⟩ := List.mem_filterMap.mp he
    obtain ⟨j, hj, h1, h2⟩ := mem_enumFrom_get ps 0 ip hmem
    refine ⟨j, hj, ?_⟩
    rw [h2, ← hip]
    congr 1
    omega

/-- Witness for C7 at a one-product batch. -/
theorem archive_entries_correspond_witness :
    ∃ i, ∃ hi : i < [([("sku", JSVal.str "W7")] : Product)].length,
      entryOf [] i ([([("sku", JSVal.str "W7")] : Product)].get ⟨i, hi⟩) =
        some ("W7-hangtag.pdf", genOk [("sku", JSVal.str "W7")] []) :=
  (archive_entries_correspond [] [[("sku", JSVal.str "W7")]]).2.1
    ("W7-hangtag.pdf", genOk [("sku", JSVal.str "W7")] [])
    (of_decide_eq_true (by with_unfolding_all rfl))

/-- C1: a product whose render fails is skipped and the loop carries on:
processing `pre ++ x :: post` from index `n` yields exactly the entries of
`pre` followed by those of `post` at their shifted indices, with no entry
and no bytes for `x`; when `x` instead renders, its single entry sits
between them. -/
theorem batch_continues_after_failure :
    (∀ (o : Options) (n : Nat) (pre : List Product) (x : Product)
        (post : List Product),
      generateHangTagPDF x o = Except.error () →
        processFrom o n (pre ++ x :: post) =
          processFrom o n pre ++ processFrom o (n + pre.length + 1) post) ∧
    (∀ (o : Options) (n : Nat) (pre : List Product) (x : Product)
        (post : List Product) (pdf : List DrawOp),
      generateHangTagPDF x o = Except.ok pdf →
        processFrom o n (pre ++ x :: post) =
          processFrom o n pre ++ (filenameOf (n + pre.length) x, pdf) ::
            processFrom o (n + pre.length + 1) post) := by
  constructor
  · intro o n pre x post hx
    induction pre generalizing n with
    | nil => simp [processFrom, hx]
    | cons p pre ih =>
      have harith : n + (pre.length + 1) + 1 = n + 1 + pre.length + 1 := by omega
      cases hg : generateHangTagPDF p o with
      | ok pdf =>
        simp only [List.cons_append, processFrom, hg, List.length_cons, harith,
          List.append_eq]
        rw [ih (n + 1)]
      | error e =>
        simp only [List.cons_append, processFrom, hg, List.length_cons, harith,
          List.append_eq]
        rw [ih (n + 1)]
  · intro o n pre x post pdf hx
    induction pre generalizing n with
    | nil => simp [processFrom, hx]
    | cons p pre ih =>
      have harith : n + (pre.length + 1) + 1 = n + 1 + pre.length + 1 := by omega
      have harith2 : n + (pre.length + 1) = n + 1 + pre.length := by omega
      cases hg : generateHangTagPDF p o with
      | ok pdf2 =>
        simp only [List.cons_append, processFrom, hg, List.length_cons, harith,
          harith2, List.append_eq]
        rw [ih (n + 1)]
      | error e =>
        simp only [List.cons_append, processFrom, hg, List.length_cons, harith,
          harith2, List.append_eq]
        rw [ih (n + 1)]

/-- Witness for C1: a concrete three-product batch whose middle product (a
numeric `tags` field) fails to render. -/
theorem batch_continues_after_failure_witness :
    processFrom [] 0
        ([([("sku", JSVal.str "G1")] : Product)] ++
          ([("tags", JSVal.num (JSNum.val 1))] : Product) ::
          [([("sku", JSVal.str "G2")] : Product)]) =
      processFrom [] 0 [([("sku", JSVal.str "G1")] : Product)] ++
        processFrom [] (0 + [([("sku", JSVal.str "G1")] : Product)].length + 1)
          [([("sku", JSVal.str "G2")] : Product)] :=
  batch_continues_after_failure.1 [] 0 [[("sku", JSVal.str "G1")]]
    [("tags", JSVal.num (JSNum.val 1))] [[("sku", JSVal.str "G2")]]
    (by with_unfolding_all rfl)

/-- C2 fails on the code: a present, truthy but non-numeric `price` value
parses to `NaN`, not to `0`. -/
theorem price_nonnumeric_yields_nan :
    (extract [("price", JSVal.str "abc")]).map Fields.price =
      Except.ok JSNum.nan ∧
    JSNum.nan ≠ JSNum.val 0 :=
  ⟨by with_unfolding_all rfl, by simp⟩

/-- C2 amended: each price-like field is `parseFloat` of the first truthy
candidate (`price` then `Variant Price`, resp. `compare_at_price` then
`Variant Compare At Price`) and `0` when both are falsy; `parseFloat`
never throws but yields `NaN` on non-numeric truthy input, and falsy
present values (`0`, `""`) fall through to the next candidate. -/
theorem price_fallback_amended (p : Product) (f : Fields)
    (h : extract p = Except.ok f) :
    ((truthy (jsGet p "price") = true →
        f.price = jsParseFloat (jsGet p "price")) ∧
      (truthy (jsGet p "price") = false →
        truthy (jsGet p "Variant Price") = true →
        f.price = jsParseFloat (jsGet p "Variant Price")) ∧
      (truthy (jsGet p "price") = false →
        truthy (jsGet p "Variant Price") = false →
        f.price = JSNum.val 0)) ∧
    ((truthy (jsGet p "compare_at_price") = true →
        f.comparePrice = jsParseFloat (jsGet p "compare_at_price")) ∧
      (truthy (jsGet p "compare_at_price") = false →
        truthy (jsGet p "Variant Compare At Price") = true →
        f.comparePrice = jsParseFloat (jsGet p "Variant Compare At Price")) ∧
      (truthy (jsGet p "compare_at_price") = false →
        truthy (jsGet p "Variant Compare At Price") = false →
        f.comparePrice = JSNum.val 0)) := by
  obtain ⟨-, -, hp, hc, -, -, -⟩ := extract_inv h
  constructor
  · refine ⟨?_, ?_, ?_⟩
    · intro h1
      rw [hp]; simp [jsOr, h1]
    · intro h1 h2
      rw [hp]; simp [jsOr, h1, h2]
    · intro h1 h2
      rw [hp]; simp [jsOr, h1, h2, jsParseFloat]
  · refine ⟨?_, ?_, ?_⟩
    · intro h1
      rw [hc]; simp [jsOr, h1]
    · intro h1 h2
      rw [hc]; simp [jsOr, h1, h2]
    · intro h1 h2
      rw [hc]; simp [jsOr, h1, h2, jsParseFloat]

/-- Witness for C2 (amended) at a record with a numeric `price` string. -/
theorem price_fallback_amended_witness :
    (extractOk [("price", JSVal.str "5")]).price =
      jsParseFloat (jsGet [("price", JSVal.str "5")] "price") :=
  (price_fallback_amended [("price", JSVal.str "5")]
      (extractOk [("price", JSVal.str "5")])
      (by with_unfolding_all rfl)).1.1 (by with_unfolding_all rfl)

/-- C3 fails on the code: a record whose `tags` is a number makes
`product.tags?.includes('Recon')` throw a `TypeError` and extraction
fails. -/
theorem extract_throws_on_numeric_tags :
    extract [("tags", JSVal.num (JSNum.val 1))] = Except.error () := by
  with_unfolding_all rfl

/-- C3 amended: extraction cannot throw as long as the fields it calls
string/array methods on have those types or are absent — `tags` absent, a
string or an array, and `sku`, `Variant SKU`, `body_html`,
`Body (HTML)` absent or strings; all remaining fields are covered by
total fallbacks whatever their type. -/
theorem extract_total_on_welltyped (p : Product)
    (h1 : tagsTyped (jsGet p "tags"))
    (h2 : strOrAbsent (jsGet p "sku"))
    (h3 : strOrAbsent (jsGet p "Variant SKU"))
    (h4 : strOrAbsent (jsGet p "body_html"))
    (h5 : strOrAbsent (jsGet p "Body (HTML)")) :
    ∃ f, extract p = Except.ok f := by
  obtain ⟨a, ha⟩ := jsOptIncludes_ok h1 "Recon"
  obtain ⟨b, hb⟩ := jsOptIncludes_ok h1 "recon"
  obtain ⟨c, hc⟩ := jsOptEndsWith_ok h2 "-R"
  obtain ⟨d, hd⟩ := jsOptEndsWith_ok h3 "-R"
  have hrec : ∃ r, isReconOf p = Except.ok r := by
    cases a <;> cases b <;> cases c <;> cases d <;>
      simp [isReconOf, ha, hb, hc, hd, Bind.bind, Except.bind, Pure.pure,
        Except.pure]
  obtain ⟨r, hr⟩ := hrec
  obtain ⟨sbody, hsbody⟩ := jsOr_str h4 h5 ""
  cases hx : extract p with
  | ok f => exact ⟨f, rfl⟩
  | error e =>
    simp [extract, hr, hsbody, jsAsString, Bind.bind, Except.bind, Pure.pure,
      Except.pure] at hx

/-- Witness for C3 (amended) at a record with a string `sku`. -/
theorem extract_total_on_welltyped_witness :
    ∃ f, extract [("sku", JSVal.str "W3")] = Except.ok f :=
  extract_total_on_welltyped [("sku", JSVal.str "W3")]
    (Or.inl (by with_unfolding_all rfl))
    (Or.inr ⟨"W3", by with_unfolding_all rfl⟩)
    (Or.inl (by with_unfolding_all rfl))
    (Or.inl (by with_unfolding_all rfl))
    (Or.inl (by with_unfolding_all rfl))

/-- C4 fails on the code: the archive filename falls back to `handle`, not
to `Variant SKU`, so a record carrying only `Variant SKU` is archived
under the synthesized per-index name. -/
theorem filename_ignores_variant_sku :
    (processProducts [] [[("Variant SKU", JSVal.str "VS-1")]]).map Prod.fst =
      ["product-1-hangtag.pdf"] ∧
    "product-1-hangtag.pdf" ≠ "VS-1-hangtag.pdf" :=
  ⟨by with_unfolding_all rfl, by simp⟩

/-- C4 amended: the archive entry of a rendered product at 0-based index
`i` is named `identifier + "-hangtag.pdf"`, where the identifier is the
truthy `sku` value, else the truthy `handle` value, else the synthesized
`product-{i+1}`; `Variant SKU` plays no part in the filename. -/
theorem filename_fallback_amended :
    (∀ (i : Nat) (p : Product) (s : String),
      jsGet p "sku" = JSVal.str s → s ≠ "" →
        filenameOf i p = s ++ "-hangtag.pdf") ∧
    (∀ (i : Nat) (p : Product) (hnd : String),
      truthy (jsGet p "sku") = false → jsGet p "handle" = JSVal.str hnd →
        hnd ≠ "" → filenameOf i p = hnd ++ "-hangtag.pdf") ∧
    (∀ (i : Nat) (p : Product),
      truthy (jsGet p "sku") = false → truthy (jsGet p "handle") = false →
        filenameOf i p = "product-" ++ Nat.repr (i + 1) ++ "-hangtag.pdf") := by
  refine ⟨?_, ?_, ?_⟩
  · intro i p s hs hne
    simp [filenameOf, jsOr, hs, truthy, hne, jsToString]
  · intro i p hnd h1 h2 h3
    simp only [filenameOf, jsOr, h1, h2]
    simp [truthy, h3, jsToString]
  · intro i p h1 h2
    simp [filenameOf, jsOr, h1, h2, jsToString]

/-- Witness for C4 (amended): a truthy `sku` names the entry, and a record
with neither `sku` nor `handle` gets the synthesized name. -/
theorem filename_fallback_amended_witness :
    filenameOf 0 [("sku", JSVal.str "A")] = "A-hangtag.pdf" ∧
    filenameOf 2 ([] : Product) = "product-3-hangtag.pdf" :=
  ⟨filename_fallback_amended.1 0 [("sku", JSVal.str "A")] "A"
      (by with_unfolding_all rfl) (by simp),
    filename_fallback_amended.2.2 2 []
      (by with_unfolding_all rfl) (by with_unfolding_all rfl)⟩

/-- C6 fails on the code: the flag also fires on a `Variant SKU` ending in
`-R` even when `sku` is present, is the identifier, and does not end in
`-R` — here the record has no tags, its identifier (its `sku`, also the
sku drawn on the page) is `ABC`, yet the flag is set. -/
theorem recon_flag_beyond_identifier :
    (extract [("sku", JSVal.str "ABC"), ("Variant SKU", JSVal.str "X-R")]).map
        (fun f => (f.isRecon, f.sku)) = Except.ok (true, JSVal.str "ABC") ∧
    jsStrEndsWith "ABC" "-R" = false ∧
    jsGet [("sku", JSVal.str "ABC"), ("Variant SKU", JSVal.str "X-R")] "tags" =
      JSVal.undef :=
  ⟨by with_unfolding_all rfl, by with_unfolding_all rfl,
    by with_unfolding_all rfl⟩

/-- C6 amended: the rendered document contains the reconditioned banner iff
the derived flag is true, and the flag (on well-typed fields) holds exactly
when the tags contain `Recon` or `recon` (those two spellings), or the
`sku` value ends in `-R`, or the `Variant SKU` value ends in `-R` — the
`Variant SKU` test runs even when `sku` is present and provides the
identifier. -/
theorem recon_banner_amended :
    (∀ (p : Product) (o : Options) (ops : List DrawOp),
      generateHangTagPDF p o = Except.ok ops →
        (hasReconBanner ops = true ↔ isReconOf p = Except.ok true)) ∧
    (∀ (xs : List String) (s v : String),
      isReconOf [("tags", JSVal.arr xs), ("sku", JSVal.str s),
          ("Variant SKU", JSVal.str v)] =
        Except.ok (xs.contains "Recon" || xs.contains "recon" ||
          jsStrEndsWith s "-R" || jsStrEndsWith v "-R")) := by
  constructor
  · intro p o ops h
    obtain ⟨f, vu, hf, hv, hops⟩ := gen_inv h
    have hflag := (extract_inv hf).1
    rw [hops, hasReconBanner_buildOps]
    constructor
    · intro hb
      rw [hb] at hflag
      exact hflag
    · intro hb
      simpa using hflag.symm.trans hb
  · intro xs s v
    by_cases hc1 : "Recon" ∈ xs <;> by_cases hc2 : "recon" ∈ xs <;>
    cases hc3 : jsStrEndsWith s "-R" <;> cases hc4 : jsStrEndsWith v "-R" <;>
      simp [isReconOf, jsGet, List.find?, jsOptIncludes, jsOptEndsWith,
        Bind.bind, Except.bind, Pure.pure, Except.pure, hc1, hc2, hc3, hc4]

/-- Witness for C6 (amended) at a record tagged `Recon`. -/
theorem recon_banner_amended_witness :
    hasReconBanner (genOk [("tags", JSVal.arr ["Recon"])] []) = true ↔
      isReconOf [("tags", JSVal.arr ["Recon"])] = Except.ok true :=
  recon_banner_amended.1 [("tags", JSVal.arr ["Recon"])] []
    (genOk [("tags", JSVal.arr ["Recon"])] []) (by with_unfolding_all rfl)

/-- C8: the MSRP strike-through line is drawn iff
`comparePrice > price && comparePrice > 0` (`NaN` comparisons are false);
when drawn, its text is `MSRP $` followed by the compare price in
`toFixed(2)` form; and that form always ends in a dot and exactly two
decimal digits. -/
theorem msrp_line_condition (p : Product) (o : Options) (ops : List DrawOp)
    (f : Fields) (hg : generateHangTagPDF p o = Except.ok ops)
    (hf : extract p = Except.ok f) :
    hasMsrpLine ops =
      (jsGt f.comparePrice f.price && jsGt f.comparePrice (JSNum.val 0)) ∧
    ((jsGt f.comparePrice f.price && jsGt f.comparePrice (JSNum.val 0)) = true →
      ∃ y, DrawOp.text { content := "MSRP $" ++ jsToFixed2 f.comparePrice,
                          x := 30, y := y, size := 10,
                          font := "Helvetica-Oblique", color := "#666666",
                          width := some 134, align := some "center",
                          strike := true } ∈ ops) ∧
    (∀ q : ℚ, ∃ t : String, ∃ d1 d2 : Nat, d1 < 10 ∧ d2 < 10 ∧
      jsToFixed2 (JSNum.val q) = t ++ "." ++ Nat.repr d1 ++ Nat.repr d2) := by
  obtain ⟨f2, vu, hf2, hv, hops⟩ := gen_inv hg
  have hff : f2 = f := by simpa using hf2.symm.trans hf
  subst hff
  refine ⟨?_, ?_, ?_⟩
  · rw [hops, hasMsrpLine_buildOps]
  · intro hc
    refine ⟨(if f2.includesText = "" then (175 : ℚ)
        else 175 + 12 + 9 * (includeItemsOf f2.includesText).length + 5) +
        min (numOrDefault (jsParseInt (jsGet o "priceSize")) 24) 28 + 2, ?_⟩
    rw [hops]
    simp [buildOps, hc]
  · intro q
    simp only [jsToFixed2]
    generalize Int.ediv (q * 100 + 1 / 2 : ℚ).num
      (((q * 100 + 1 / 2 : ℚ).den : ℤ)) = m
    by_cases h : m < 0
    · obtain ⟨t, d1, d2, hd1, hd2, ht⟩ := fixedFmt_two_digits (-m).toNat
      refine ⟨"-" ++ t, d1, d2, hd1, hd2, ?_⟩
      rw [if_pos h, ht]
      simp [String.append_assoc]
    · obtain ⟨t, d1, d2, hd1, hd2, ht⟩ := fixedFmt_two_digits m.toNat
      exact ⟨t, d1, d2, hd1, hd2, by rw [if_neg h, ht]⟩

/-- Witness for C8 at a record with `compare_at_price` above `price`. -/
theorem msrp_line_condition_witness :
    hasMsrpLine (genOk [("price", JSVal.str "10"),
        ("compare_at_price", JSVal.str "19.99")] []) =
      (jsGt (extractOk [("price", JSVal.str "10"),
          ("compare_at_price", JSVal.str "19.99")]).comparePrice
          (extractOk [("price", JSVal.str "10"),
            ("compare_at_price", JSVal.str "19.99")]).price &&
        jsGt (extractOk [("price", JSVal.str "10"),
            ("compare_at_price", JSVal.str "19.99")]).comparePrice
          (JSNum.val 0)) :=
  (msrp_line_condition [("price", JSVal.str "10"),
      ("compare_at_price", JSVal.str "19.99")] []
    (genOk [("price", JSVal.str "10"), ("compare_at_price", JSVal.str "19.99")] [])
    (extractOk [("price", JSVal.str "10"), ("compare_at_price", JSVal.str "19.99")])
    (by with_unfolding_all rfl) (by with_unfolding_all rfl)).1

/-- C9: the synthesized `product-{index}` fallback exists only in the batch
loop's filename — the renderer receives no index at all — and a record with
neither `sku` nor `Variant SKU` extracts the empty-string sku, so the page
carries the bare `Model ` label, and the reconditioned banner's right-hand
text, when the banner is drawn, is empty. -/
theorem synthesized_id_not_rendered (p : Product) (o : Options)
    (ops : List DrawOp) (h1 : jsGet p "sku" = JSVal.undef)
    (h2 : jsGet p "Variant SKU" = JSVal.undef)
    (hg : generateHangTagPDF p o = Except.ok ops) :
    (DrawOp.text { content := "Model ", x := 100, y := 20, size := 10,
                   font := "Helvetica-Bold", color := "black",
                   width := some 86, align := some "right" } ∈ ops) ∧
    (hasReconBanner ops = true →
      DrawOp.text { content := "", x := 130, y := 248, size := 8,
                    font := "Helvetica-Bold", color := "white" } ∈ ops) := by
  obtain ⟨f, vu, hf, hv, hops⟩ := gen_inv hg
  have hsku := (extract_inv hf).2.2.2.2.2.2
  rw [h1, h2] at hsku
  have hsku2 : f.sku = JSVal.str "" := by simpa [jsOr, truthy] using hsku
  have hstr : jsToString f.sku = "" := by rw [hsku2]; rfl
  constructor
  · rw [hops]
    have hmodel : "Model " ++ jsToString f.sku = "Model " := by
      rw [hstr]; rfl
    simp [buildOps, hmodel]
  · intro hb
    rw [hops] at hb ⊢
    rw [hasReconBanner_buildOps] at hb
    simp [buildOps, hb, hstr]

/-- Witness for C9 at the empty record. -/
theorem synthesized_id_not_rendered_witness :
    DrawOp.text { content := "Model ", x := 100, y := 20, size := 10,
                  font := "Helvetica-Bold", color := "black",
                  width := some 86, align := some "right" } ∈ genOk [] [] :=
  (synthesized_id_not_rendered [] [] (genOk [] []) (by with_unfolding_all rfl)
    (by with_unfolding_all rfl) (by with_unfolding_all rfl)).1
